import Mathlib

/-!
Shallow embedding of the account/data layer of django-sozluk
(`dictionary/models/author.py`).  The relational store is a record of
row lists; the model-level operations (`Author.save`, the nickname
validator, `UserVerification.save`, the derived read-only queries, the
cascade and uniqueness behaviour of the declared foreign keys and
constraints) are pure functions on that state.  Timestamps are integer
seconds; the `Decimal` vote rate is a rational.
-/

namespace Sozluk

/-- The value of `datetime.timedelta(hours=24)` in seconds; timestamps
are measured in integer seconds. -/
def hours24 : Int := 24 * 3600

/-- Row of the external `Entry` model.  Modelled from the spec: the Entry
model itself is outside this excerpt; the spec describes entries as
authored content carrying a vote rate, with a collaborator-provided
filter `objects_published` that keeps published entries only, so the row
carries its author id, a published flag and the `Decimal` vote rate. -/
structure Entry where
  id : Nat
  author : Nat
  published : Bool
  vote_rate : ℚ
deriving Repr, DecidableEq

/-- Row of the `Author` model.  Only the columns the verified claims
mention are embedded: the primary key, the unique `username` handle, the
unique `email`, the nullable unique `pinned_entry` reference
(`OneToOneField`, `on_delete=SET_NULL`) and the `following_categories`
many-to-many set (kept as the list of linked category ids).  Profile and
preference columns (`birth_date`, `gender`, the lifecycle flags, the
per-page sizes, `message_preference`, the social and vote edges) play no
part in any claim and are omitted. -/
structure Author where
  id : Nat
  username : String
  email : String
  pinned_entry : Option Nat
  following_categories : List Nat
deriving Repr, DecidableEq

/-- Row of the `Memento` model: optional free-text body, `holder` and
`patient` foreign keys to `Author`, both `on_delete=CASCADE`, with a
unique constraint on the pair. -/
structure Memento where
  id : Nat
  body : Option String
  holder : Nat
  patient : Nat
deriving Repr, DecidableEq

/-- Row of the `UserVerification` model: `author` foreign key
(`on_delete=CASCADE`), the token string, the optional pending new email
and the `expiration_date` timestamp. -/
structure UserVerification where
  id : Nat
  author : Nat
  verification_token : String
  new_email : Option String
  expiration_date : Int
deriving Repr, DecidableEq

/-- The relational store: the `Author`, `Entry`, `Category`, `Memento`
and `UserVerification` tables.  Categories are external rows referenced
only by id. -/
structure DB where
  authors : List Author
  entries : List Entry
  categories : List Nat
  mementos : List Memento
  verifications : List UserVerification
deriving Repr, DecidableEq

/-- The empty store. -/
def dbEmpty : DB := ⟨[], [], [], [], []⟩

/-- Fresh primary key for an insert: one past the largest id in use. -/
def freshId (ids : List Nat) : Nat :=
  ids.foldr (fun i m => max (i + 1) m) 0

/-! ## Nickname validation (`AuthorNickValidator`) -/

/-- Membership in the character class `[a-z\ ]` of the validator regex. -/
def nickChar (c : Char) : Bool :=
  ( Char.ofNat 97 ≤ c && c ≤ Char.ofNat 122) || c == Char.ofNat 32

/-- One match of `[a-z\ ]+` covering the whole character list. -/
def nickMatches (cs : List Char) : Bool :=
  !cs.isEmpty && cs.all nickChar

/-- `AuthorNickValidator` with `regex = ^[a-z\ ]+$`.  Django's
`RegexValidator` calls Python's `re.search`; without `MULTILINE` the
dollar anchor matches at the end of the string or just before a single
newline at the end of the string, so the accepted handles are
`[a-z ]+` optionally followed by one trailing newline. -/
def nickValid (s : String) : Bool :=
  nickMatches s.data ||
    (s.data.getLast? == some (Char.ofNat 10) && nickMatches s.data.dropLast)

/-- The restricted alphabet the spec describes: lowercase letters a-z
and the space character. -/
def restrictedAlphabet (c : Char) : Prop :=
  (Char.ofNat 97 ≤ c ∧ c ≤ Char.ofNat 122) ∨ c = Char.ofNat 32

instance (c : Char) : Decidable (restrictedAlphabet c) := by
  unfold restrictedAlphabet; infer_instance

/-- Whole write-time check on the handle: the nickname validator plus
the `max_length=50` bound of the `username` column. -/
def validUsername (s : String) : Bool :=
  nickValid s && s.length ≤ 50

/-! ## Account creation (`Author.save` on a fresh row) -/

/-- Error kinds surfaced by account creation: the handle failing its
field validation (a `ValidationError`), or the unique constraints on
`username` or `email` firing (the distinct already-taken kind). -/
inductive CreateError where
  | validation
  | uniqueness
deriving Repr, DecidableEq

/-- The row `Author.save` inserts for a fresh account (`self.pk is
None`): a fresh primary key, no pinned entry, and — by the `created`
branch that runs `self.following_categories.add(*Category.objects.all())`
right after the insert — a link to every category existing at that
moment. -/
def newAuthorRow (db : DB) (u e : String) : Author :=
  { id := freshId (db.authors.map (fun a => a.id))
    username := u
    email := e
    pinned_entry := none
    following_categories := db.categories }

/-- Account creation: validate the handle (field validators and
`max_length`), enforce the unique constraints on `username` and `email`,
then run `Author.save` on the fresh row, including its
category-bootstrap side effect. -/
def createAuthor (db : DB) (u e : String) : Except CreateError DB :=
  if validUsername u then
    if db.authors.any (fun a => a.username == u || a.email == e) then
      .error .uniqueness
    else
      .ok { db with authors := db.authors ++ [newAuthorRow db u e] }
  else
    .error .validation

/-- The store a caller is left with after attempting a creation: the new
store on success, the untouched one when the attempt failed. -/
def applyCreate (db : DB) (u e : String) : DB :=
  match createAuthor db u e with
  | .ok db' => db'
  | .error _ => db

/-- `Author.save` on a row whose primary key is already set: `created`
is false, so the update writes the scalar columns of the row and the
category-bootstrap branch is skipped; the stored many-to-many category
links are untouched. -/
def authorResave (db : DB) (a : Author) : DB :=
  { db with
    authors := db.authors.map (fun r =>
      if r.id = a.id then { a with following_categories := r.following_categories } else r) }

/-- Inserting a new `Category` row touches only the category table. -/
def createCategory (db : DB) (c : Nat) : DB :=
  { db with categories := db.categories ++ [c] }

/-! ## Derived read-only queries on `Author` -/

/-- `Entry.objects_published.filter(author=self)`: the author's
published entries. -/
def publishedEntries (db : DB) (aid : Nat) : List Entry :=
  db.entries.filter (fun e => e.author == aid && e.published)

/-- `order_by("-vote_rate").first()`: the first entry of the list sorted
by descending vote rate — an entry of maximal vote rate, the earliest
one on ties. -/
def bestByVoteRate : List Entry → Option Entry
  | [] => none
  | e :: es =>
    match bestByVoteRate es with
    | none => some e
    | some b => if e.vote_rate < b.vote_rate then some b else some e

/-- `Author.entry_nice`: the best published entry by vote rate, surfaced
only when its vote rate strictly exceeds `Decimal("1")`, otherwise
`None`. -/
def entry_nice (db : DB) (aid : Nat) : Option Entry :=
  match bestByVoteRate (publishedEntries db aid) with
  | some e => if 1 < e.vote_rate then some e else none
  | none => none

/-- `Author.email_confirmed`: false exactly when
`self.userverification_set.filter(expiration_date__gte=now - 24h)`
is non-empty, true otherwise. -/
def email_confirmed (db : DB) (aid : Nat) (now : Int) : Bool :=
  if db.verifications.any (fun v =>
      v.author == aid && now - hours24 ≤ v.expiration_date) then
    false
  else
    true

/-- Freshness of a token as the spec reads the comparison:
`now - issued_reference ≤ 24h`, with the stored `expiration_date` as the
opaque issued-reference comparison point. -/
def freshToken (v : UserVerification) (now : Int) : Prop :=
  now - v.expiration_date ≤ hours24

/-! ## `UserVerification.save` -/

/-- `UserVerification.save`: first
`UserVerification.objects.filter(author=self.author).delete()`, then the
ordinary insert of the new row. -/
def userVerificationSave (db : DB) (aid : Nat) (tok : String)
    (ne : Option String) (exp : Int) : DB :=
  { db with
    verifications :=
      db.verifications.filter (fun v => !(v.author == aid)) ++
        [{ id := freshId ((db.verifications.filter
              (fun v => !(v.author == aid))).map (fun v => v.id))
           author := aid
           verification_token := tok
           new_email := ne
           expiration_date := exp }] }

/-- Modelled from the spec: the collaborator that issues a token
(registration or email-change flow, outside this excerpt) supplies
`expiration_date` as the issued-time reference point, so issuing at time
`t` stores `t` as the comparison point and goes through
`UserVerification.save`. -/
def issueToken (db : DB) (aid : Nat) (tok : String) (t : Int) : DB :=
  userVerificationSave db aid tok none t

/-! ## `Memento` writes -/

/-- Storage-level constraint violations the claims mention: the
`unique_memento` constraint on `(holder, patient)`. -/
inductive StorageError where
  | uniqueMemento
deriving Repr, DecidableEq

/-- The rows the store holds for one `(holder, patient)` pair. -/
def mementoPairRows (db : DB) (h p : Nat) : List Memento :=
  db.mementos.filter (fun m => m.holder == h && m.patient == p)

/-- Naive insert of a `Memento` row: the `unique_memento` constraint
(`UniqueConstraint(fields=['holder', 'patient'])`) rejects a second row
for an existing pair. -/
def mementoInsert (db : DB) (h p : Nat) (b : Option String) :
    Except StorageError DB :=
  if (mementoPairRows db h p).isEmpty then
    .ok { db with
      mementos := db.mementos ++
        [{ id := freshId (db.mementos.map (fun m => m.id))
           body := b, holder := h, patient := p }] }
  else
    .error .uniqueMemento

/-- Modelled from the spec: the upsert contract of §4.2 — the write path
creates the single permitted row, or converts the constraint violation
into an update of the existing row's body. -/
def mementoUpsert (db : DB) (h p : Nat) (b : Option String) : DB :=
  match mementoInsert db h p b with
  | .ok db' => db'
  | .error _ =>
      { db with
        mementos := db.mementos.map (fun m =>
          if m.holder == h && m.patient == p then { m with body := b } else m) }

/-! ## Deletion cascades and the pinned-entry constraint -/

/-- Deleting an `Author` row: the `CASCADE` foreign keys remove every
`Memento` in which the account is holder or patient and every
`UserVerification` it owns. -/
def deleteAuthor (db : DB) (aid : Nat) : DB :=
  { db with
    authors := db.authors.filter (fun a => !(a.id == aid))
    mementos := db.mementos.filter (fun m => !(m.holder == aid) && !(m.patient == aid))
    verifications := db.verifications.filter (fun v => !(v.author == aid)) }

/-- Deleting an `Entry` row: `pinned_entry` is declared
`on_delete=SET_NULL`, so every author pinning it has the reference
cleared and no author row is deleted. -/
def deleteEntry (db : DB) (eid : Nat) : DB :=
  { db with
    entries := db.entries.filter (fun e => !(e.id == eid))
    authors := db.authors.map (fun a =>
      if a.pinned_entry = some eid then { a with pinned_entry := none } else a) }

/-- Error kind of the unique column backing the `OneToOneField`
`pinned_entry`. -/
inductive PinError where
  | alreadyPinned
deriving Repr, DecidableEq

/-- Setting `pinned_entry`: the `OneToOneField` declaration puts a
unique constraint on the column, so the write is rejected when a
different account already stores the same entry there. -/
def pinEntry (db : DB) (aid eid : Nat) : Except PinError DB :=
  if db.authors.any (fun a => !(a.id == aid) && a.pinned_entry == some eid) then
    .error .alreadyPinned
  else
    .ok { db with
      authors := db.authors.map (fun a =>
        if a.id = aid then { a with pinned_entry := some eid } else a) }

/-! ## List helper lemmas -/

theorem filter_filter_empty {α} (p q : α → Bool) (l : List α)
    (h : ∀ a, q a = true → p a = false) : (l.filter p).filter q = [] := by
  induction l with
  | nil => rfl
  | cons x xs ih =>
    cases hp : p x with
    | false => simpa [List.filter_cons, hp] using ih
    | true =>
      have hq : q x = false := by
        cases hqx : q x with
        | false => rfl
        | true => rw [h x hqx] at hp; exact absurd hp (by simp)
      simp [List.filter_cons, hp, hq, ih]

theorem filter_filter_subset {α} (p q : α → Bool) (l : List α)
    (h : ∀ a, q a = true → p a = true) : (l.filter p).filter q = l.filter q := by
  induction l with
  | nil => rfl
  | cons x xs ih =>
    cases hp : p x with
    | true => simp [List.filter_cons, hp, ih]
    | false =>
      have hq : q x = false := by
        cases hqx : q x with
        | false => rfl
        | true => rw [h x hqx] at hp; exact absurd hp (by simp)
      simp [List.filter_cons, hp, hq, ih]

theorem any_filter_empty {α} (p q : α → Bool) (l : List α)
    (h : ∀ a, q a = true → p a = false) : (l.filter p).any q = false := by
  have := filter_filter_empty p q l h
  cases hany : (l.filter p).any q with
  | false => rfl
  | true =>
    obtain ⟨a, ha, hqa⟩ := List.any_eq_true.mp hany
    have : a ∈ (l.filter p).filter q := List.mem_filter.mpr ⟨ha, hqa⟩
    rw [filter_filter_empty p q l h] at this
    exact absurd this (List.not_mem_nil a)

theorem email_confirmed_false_iff_any (db : DB) (aid : Nat) (now : Int) :
    email_confirmed db aid now = false ↔
      db.verifications.any (fun v =>
        v.author == aid && now - hours24 ≤ v.expiration_date) = true := by
  unfold email_confirmed
  cases db.verifications.any (fun v =>
    v.author == aid && now - hours24 ≤ v.expiration_date) <;> simp

theorem email_confirmed_true_iff_any (db : DB) (aid : Nat) (now : Int) :
    email_confirmed db aid now = true ↔
      db.verifications.any (fun v =>
        v.author == aid && now - hours24 ≤ v.expiration_date) = false := by
  unfold email_confirmed
  cases db.verifications.any (fun v =>
    v.author == aid && now - hours24 ≤ v.expiration_date) <;> simp

/-! ## Claims -/

/-- Claim C1: `email_confirmed` returns false exactly when at least one
verification token of the account is fresh under the fixed 24-hour
window (`now - issued reference ≤ 24h` on the stored comparison point);
it is true for an account with no token, false immediately after issuing
a token, and true again once the issued time lies more than 24 hours in
the past with only time passing. -/
theorem C1_email_confirmed (db : DB) (aid : Nat) (now : Int) :
    (email_confirmed db aid now = false ↔
      ∃ v ∈ db.verifications, v.author = aid ∧ freshToken v now)
    ∧ ((∀ v ∈ db.verifications, v.author ≠ aid) →
        email_confirmed db aid now = true)
    ∧ (∀ tok t, email_confirmed (issueToken db aid tok t) aid t = false)
    ∧ (∀ tok t now2, hours24 < now2 - t →
        email_confirmed (issueToken db aid tok t) aid now2 = true) := by
  refine ⟨?_, ?_, ?_, ?_⟩
  · rw [email_confirmed_false_iff_any, List.any_eq_true]
    constructor
    · rintro ⟨v, hv, hcond⟩
      simp only [Bool.and_eq_true, beq_iff_eq, decide_eq_true_eq] at hcond
      refine ⟨v, hv, hcond.1, ?_⟩
      have h2 := hcond.2
      unfold freshToken
      unfold hours24 at *
      omega
    · rintro ⟨v, hv, ha, hfresh⟩
      refine ⟨v, hv, ?_⟩
      simp only [Bool.and_eq_true, beq_iff_eq, decide_eq_true_eq]
      unfold freshToken at hfresh
      refine ⟨ha, ?_⟩
      unfold hours24 at *
      omega
  · intro h
    rw [email_confirmed_true_iff_any, List.any_eq_false]
    intro v hv
    simp only [Bool.and_eq_true, beq_iff_eq, decide_eq_true_eq, not_and]
    intro ha
    exact absurd ha (h v hv)
  · intro tok t
    rw [email_confirmed_false_iff_any]
    unfold issueToken userVerificationSave
    simp only [List.any_append, List.any_cons, List.any_nil]
    have hrow : ((aid == aid) && decide (t - hours24 ≤ t)) = true := by
      simp only [beq_self_eq_true, Bool.true_and, decide_eq_true_eq]
      unfold hours24
      omega
    rw [hrow]
    simp
  · intro tok t now2 hlate
    rw [email_confirmed_true_iff_any]
    unfold issueToken userVerificationSave
    simp only [List.any_append, List.any_cons, List.any_nil]
    have hpruned : (db.verifications.filter (fun v => !(v.author == aid))).any
        (fun v => v.author == aid && now2 - hours24 ≤ v.expiration_date) = false := by
      apply any_filter_empty
      intro v hv
      simp only [Bool.and_eq_true, beq_iff_eq] at hv
      simp [hv.1]
    rw [hpruned]
    have hrow : ((aid == aid) && decide (now2 - hours24 ≤ t)) = false := by
      simp only [beq_self_eq_true, Bool.true_and, decide_eq_false_iff_not]
      unfold hours24 at *
      omega
    rw [hrow]
    simp

/-- Closed instance of C1: a token-free account reads confirmed, reads
unconfirmed right after a token is issued, and reads confirmed again
once more than 24 hours have passed. -/
theorem C1_email_confirmed_witness :
    email_confirmed dbEmpty 1 0 = true
    ∧ email_confirmed (issueToken dbEmpty 1 "t" 0) 1 0 = false
    ∧ email_confirmed (issueToken dbEmpty 1 "t" 0) 1 (hours24 + 1) = true :=
  ⟨(C1_email_confirmed dbEmpty 1 0).2.1 (by intro v hv; simp [dbEmpty] at hv),
   (C1_email_confirmed dbEmpty 1 0).2.2.1 "t" 0,
   (C1_email_confirmed dbEmpty 1 0).2.2.2 "t" 0 (hours24 + 1) (by decide)⟩

/-- Claim C2: `UserVerification.save` first deletes every token row of
the account, so after a save exactly one row exists for that account,
rows of other accounts are untouched, and saving twice in succession
leaves exactly one row bearing the second token's value. -/
theorem C2_single_token (db : DB) (aid : Nat) (tok : String)
    (ne : Option String) (exp : Int) :
    (((userVerificationSave db aid tok ne exp).verifications.filter
        (fun v => v.author == aid)).length = 1)
    ∧ (∀ b, b ≠ aid →
        (userVerificationSave db aid tok ne exp).verifications.filter
            (fun v => v.author == b)
          = db.verifications.filter (fun v => v.author == b))
    ∧ (∀ tok2 ne2 exp2,
        ((userVerificationSave (userVerificationSave db aid tok ne exp)
            aid tok2 ne2 exp2).verifications.filter
              (fun v => v.author == aid)).map (fun v => v.verification_token)
          = [tok2]) := by
  have hkey : ∀ (l : List UserVerification) (t : String) (n : Option String) (x : Int),
      ((l.filter (fun v => !(v.author == aid))) ++
        [({ id := freshId ((l.filter (fun v => !(v.author == aid))).map (fun v => v.id)),
            author := aid, verification_token := t, new_email := n,
            expiration_date := x } : UserVerification)]).filter (fun v => v.author == aid)
        = [({ id := freshId ((l.filter (fun v => !(v.author == aid))).map (fun v => v.id)),
              author := aid, verification_token := t, new_email := n,
              expiration_date := x } : UserVerification)] := by
    intro l t n x
    rw [List.filter_append,
      filter_filter_empty _ _ l (by intro a ha; simpa using ha)]
    simp
  refine ⟨?_, ?_, ?_⟩
  · unfold userVerificationSave
    rw [hkey db.verifications tok ne exp]
    rfl
  · intro b hb
    unfold userVerificationSave
    rw [List.filter_append,
      filter_filter_subset _ _ db.verifications ?_]
    · simp [Ne.symm hb]
    · intro a ha
      simp only [beq_iff_eq] at ha
      simp [ha, hb]
  · intro tok2 ne2 exp2
    unfold userVerificationSave
    rw [hkey]
    simp

/-- Closed instance of C2: issuing token t1 and then token t2 for
account 1 leaves exactly one row for it, bearing t2. -/
theorem C2_single_token_witness :
    ((userVerificationSave (userVerificationSave dbEmpty 1 "t1" none 5)
        1 "t2" none 9).verifications.filter
          (fun v => v.author == 1)).map (fun v => v.verification_token) = ["t2"]
    ∧ (userVerificationSave dbEmpty 1 "t1" none 5).verifications.filter
        (fun v => v.author == 2)
      = dbEmpty.verifications.filter (fun v => v.author == 2) :=
  ⟨(C2_single_token dbEmpty 1 "t1" none 5).2.2 "t2" none 9,
   (C2_single_token dbEmpty 1 "t1" none 5).2.1 2 (by decide)⟩

/-- Claim C3: the first save of an account (the insert, `self.pk is
None`) subscribes it in one bulk link to every category existing at that
moment; creating a category afterwards does not touch existing author
rows; re-saving an existing account leaves every stored category
subscription unchanged, so the bootstrap never re-runs. -/
theorem C3_category_bootstrap :
    (∀ db u e db', createAuthor db u e = .ok db' →
      ∃ a : Author, db'.authors = db.authors ++ [a] ∧
        a.following_categories = db.categories)
    ∧ (∀ db c, (createCategory db c).authors = db.authors)
    ∧ (∀ db a, (authorResave db a).authors.map (fun r => (r.id, r.following_categories))
        = db.authors.map (fun r => (r.id, r.following_categories))) := by
  refine ⟨?_, ?_, ?_⟩
  · intro db u e db' h
    unfold createAuthor at h
    by_cases hv : validUsername u = true
    · rw [if_pos hv] at h
      by_cases hd : db.authors.any (fun a => a.username == u || a.email == e) = true
      · rw [if_pos hd] at h
        exact absurd h (by simp)
      · rw [if_neg hd] at h
        refine ⟨newAuthorRow db u e, ?_, rfl⟩
        cases h
        rfl
    · rw [if_neg hv] at h
      exact absurd h (by simp)
  · intro db c
    rfl
  · intro db a
    unfold authorResave
    rw [List.map_map]
    apply List.map_congr_left
    intro r _
    by_cases h : r.id = a.id
    · simp only [Function.comp_apply, if_pos h]
      exact congrArg (fun i => (i, r.following_categories)) h.symm
    · simp only [Function.comp_apply, if_neg h]

/-- Store holding two categories and nothing else, for the closed
instance of C3. -/
def dbCats : DB := { dbEmpty with categories := [3, 5] }

/-- Closed instance of C3: creating an account while two categories
exist appends one author row subscribed to exactly those categories. -/
theorem C3_category_bootstrap_witness :
    ∃ a : Author, (applyCreate dbCats "ab c" "a@b.c").authors = dbCats.authors ++ [a] ∧
      a.following_categories = dbCats.categories :=
  C3_category_bootstrap.1 dbCats "ab c" "a@b.c" (applyCreate dbCats "ab c" "a@b.c") rfl

/-- Claim C4: the regex `^[a-z\ ]+$` is applied through Python's
`re.search`, whose dollar anchor also matches just before a trailing
newline, so the handle made of a, b, c and a final newline — which
contains a character outside the restricted alphabet — passes the
validator and account creation succeeds with it instead of failing;
every handle that does match the restricted pattern passes the format
check. -/
theorem C4_handle_validation :
    (¬ ∀ c ∈ ("abc\n").data, restrictedAlphabet c)
    ∧ nickValid "abc\n" = true
    ∧ (∃ db', createAuthor dbEmpty "abc\n" "a@b.c" = .ok db')
    ∧ (∀ u : String, u.data ≠ [] → (∀ c ∈ u.data, restrictedAlphabet c) →
        nickValid u = true) := by
  refine ⟨by decide, by decide, ⟨applyCreate dbEmpty "abc\n" "a@b.c", rfl⟩, ?_⟩
  intro u hne hall
  unfold nickValid
  have hmatch : nickMatches u.data = true := by
    unfold nickMatches
    have h1 : u.data.isEmpty = false := by
      cases hd : u.data with
      | nil => exact absurd hd hne
      | cons _ _ => rfl
    have h2 : u.data.all nickChar = true := by
      rw [List.all_eq_true]
      intro c hc
      have hr := hall c hc
      unfold restrictedAlphabet at hr
      unfold nickChar
      rcases hr with ⟨hlo, hhi⟩ | hsp
      · simp [hlo, hhi]
      · simp [hsp]
    rw [h1, h2]
    rfl
  rw [hmatch]
  rfl

/-- Closed instance of the universal part of C4: a handle of lowercase
letters and a space passes the format check. -/
theorem C4_handle_validation_witness :
    nickValid "ab c" = true :=
  C4_handle_validation.2.2.2 "ab c" (by decide) (by decide)

theorem pair_filter_update (l : List Memento) (h p : Nat) (b : Option String) :
    (l.map (fun m => if m.holder == h && m.patient == p
        then { m with body := b } else m)).filter
      (fun m => m.holder == h && m.patient == p)
      = (l.filter (fun m => m.holder == h && m.patient == p)).map
          (fun m => { m with body := b }) := by
  induction l with
  | nil => rfl
  | cons m ms ih =>
    by_cases hm : (m.holder == h && m.patient == p) = true
    · have hm' : (({ m with body := b } : Memento).holder == h &&
          ({ m with body := b } : Memento).patient == p) = true := hm
      simp only [List.map_cons, List.filter_cons, hm, if_pos, hm', ih]
    · have hmf : (m.holder == h && m.patient == p) = false :=
        Bool.not_eq_true _ ▸ hm
      simp only [List.map_cons, List.filter_cons, hmf, if_neg, Bool.false_eq_true,
        if_false, ih]

theorem mementoUpsert_pairRows (db : DB) (h p : Nat) (b : Option String)
    (hlen : (mementoPairRows db h p).length ≤ 1) :
    ∃ i, mementoPairRows (mementoUpsert db h p b) h p
      = [({ id := i, body := b, holder := h, patient := p } : Memento)] := by
  unfold mementoUpsert mementoInsert
  cases hrows : mementoPairRows db h p with
  | nil =>
    rw [List.isEmpty_nil, if_pos rfl]
    refine ⟨freshId (db.mementos.map (fun m => m.id)), ?_⟩
    show List.filter (fun (m : Memento) => m.holder == h && m.patient == p)
        (db.mementos ++
          [({ id := freshId (db.mementos.map (fun m => m.id)), body := b,
              holder := h, patient := p } : Memento)])
      = [({ id := freshId (db.mementos.map (fun m => m.id)), body := b,
            holder := h, patient := p } : Memento)]
    rw [List.filter_append]
    unfold mementoPairRows at hrows
    rw [hrows]
    simp
  | cons m0 ms =>
    rw [List.isEmpty_cons, if_neg (by simp)]
    have hms : ms = [] := by
      rw [hrows] at hlen
      cases ms with
      | nil => rfl
      | cons _ _ => simp at hlen
    subst hms
    have hm0 : m0 ∈ mementoPairRows db h p := by rw [hrows]; exact List.mem_singleton.mpr rfl
    have hm0p := (List.mem_filter.mp hm0).2
    simp only [Bool.and_eq_true, beq_iff_eq] at hm0p
    refine ⟨m0.id, ?_⟩
    show List.filter (fun (m : Memento) => m.holder == h && m.patient == p)
        (db.mementos.map (fun (m : Memento) =>
          if m.holder == h && m.patient == p then { m with body := b } else m))
      = [({ id := m0.id, body := b, holder := h, patient := p } : Memento)]
    rw [pair_filter_update]
    unfold mementoPairRows at hrows
    rw [hrows]
    simp only [List.map_cons, List.map_nil]
    cases m0
    simp only [List.cons.injEq, Memento.mk.injEq, true_and, and_true]
    exact hm0p

/-- Claim C5: a second naive insert for an existing (holder, patient)
pair fires the uniqueness constraint, and — under the invariant that at
most one row exists for the pair — the upsert path writing body x and
then body y leaves exactly one row for the pair, carrying body y. -/
theorem C5_memento_upsert (db : DB) (hA pB : Nat) (x y : Option String)
    (hinv : (mementoPairRows db hA pB).length ≤ 1) :
    (∀ b, mementoPairRows db hA pB ≠ [] →
        mementoInsert db hA pB b = .error .uniqueMemento)
    ∧ ((mementoPairRows (mementoUpsert (mementoUpsert db hA pB x) hA pB y) hA pB).map
          (fun m => m.body) = [y]) := by
  constructor
  · intro b hne
    unfold mementoInsert
    have hemp : (mementoPairRows db hA pB).isEmpty = false := by
      cases hr : mementoPairRows db hA pB with
      | nil => exact absurd hr hne
      | cons _ _ => rfl
    rw [hemp, if_neg (by simp)]
  · obtain ⟨i1, h1⟩ := mementoUpsert_pairRows db hA pB x hinv
    have hlen1 : (mementoPairRows (mementoUpsert db hA pB x) hA pB).length ≤ 1 := by
      rw [h1]; exact le_refl 1
    obtain ⟨i2, h2⟩ := mementoUpsert_pairRows (mementoUpsert db hA pB x) hA pB y hlen1
    rw [h2]
    rfl

/-- Closed instance of C5: upserting body x then body y for the pair of
accounts 1 and 2 in the empty store leaves one row with body y. -/
theorem C5_memento_upsert_witness :
    (mementoPairRows (mementoUpsert (mementoUpsert dbEmpty 1 2 (some "x")) 1 2
        (some "y")) 1 2).map (fun m => m.body) = [some "y"] :=
  (C5_memento_upsert dbEmpty 1 2 (some "x") (some "y") (by decide)).2

/-- Claim C6: handles and emails are globally unique — creating a
second account with an existing handle or an existing email fails with
the distinct already-taken error kind, and the store is left untouched
by the failed attempt. -/
theorem C6_unique_handle_email (db : DB) (a : Author) (u e : String)
    (ha : a ∈ db.authors) (hdup : a.username = u ∨ a.email = e)
    (hu : validUsername u = true) :
    createAuthor db u e = .error .uniqueness ∧ applyCreate db u e = db := by
  have hany : db.authors.any (fun x => x.username == u || x.email == e) = true := by
    rw [List.any_eq_true]
    refine ⟨a, ha, ?_⟩
    rcases hdup with hd | hd <;> simp [hd]
  have hc : createAuthor db u e = .error .uniqueness := by
    unfold createAuthor
    rw [if_pos hu, if_pos hany]
  refine ⟨hc, ?_⟩
  unfold applyCreate
  rw [hc]

/-- Store holding one account, for the closed instance of C6. -/
def dbOne : DB :=
  { dbEmpty with
    authors := [{ id := 0, username := "ab", email := "a@b.c",
                  pinned_entry := none, following_categories := [] }] }

/-- Closed instance of C6: re-using the handle of the stored account
fails with the already-taken kind and leaves the store unchanged. -/
theorem C6_unique_handle_email_witness :
    createAuthor dbOne "ab" "x@y.z" = .error .uniqueness ∧
      applyCreate dbOne "ab" "x@y.z" = dbOne :=
  C6_unique_handle_email dbOne
    { id := 0, username := "ab", email := "a@b.c",
      pinned_entry := none, following_categories := [] }
    "ab" "x@y.z" (by decide) (Or.inl (by decide)) (by decide)

theorem bestByVoteRate_eq_none {l : List Entry} :
    bestByVoteRate l = none ↔ l = [] := by
  cases l with
  | nil => simp [bestByVoteRate]
  | cons e es =>
    simp only [bestByVoteRate]
    cases hb : bestByVoteRate es with
    | none => simp
    | some b =>
      dsimp only
      by_cases hlt : e.vote_rate < b.vote_rate
      · rw [if_pos hlt]; simp
      · rw [if_neg hlt]; simp

theorem bestByVoteRate_spec {l : List Entry} {e : Entry}
    (h : bestByVoteRate l = some e) :
    e ∈ l ∧ ∀ x ∈ l, x.vote_rate ≤ e.vote_rate := by
  induction l generalizing e with
  | nil => exact absurd h (by simp [bestByVoteRate])
  | cons a as ih =>
    simp only [bestByVoteRate] at h
    cases hb : bestByVoteRate as with
    | none =>
      rw [hb] at h
      have has : as = [] := bestByVoteRate_eq_none.mp hb
      subst has
      cases h
      refine ⟨List.mem_singleton.mpr rfl, ?_⟩
      intro x hx
      rw [List.mem_singleton.mp hx]
    | some b =>
      rw [hb] at h
      dsimp only at h
      obtain ⟨hbmem, hbmax⟩ := ih hb
      by_cases hlt : a.vote_rate < b.vote_rate
      · rw [if_pos hlt] at h
        cases h
        refine ⟨List.mem_cons_of_mem a hbmem, ?_⟩
        intro x hx
        rcases List.mem_cons.mp hx with hx | hx
        · rw [hx]; exact le_of_lt hlt
        · exact hbmax x hx
      · rw [if_neg hlt] at h
        cases h
        refine ⟨List.mem_cons_self a as, ?_⟩
        intro x hx
        rcases List.mem_cons.mp hx with hx | hx
        · rw [hx]
        · exact le_trans (hbmax x hx) (not_lt.mp hlt)

/-- Claim C7: `entry_nice` reports none exactly when every published
entry of the account (also: none at all) has vote rate at most 1, and
when it reports an entry that entry is a published entry of the account
of maximal vote rate, strictly above the threshold 1. -/
theorem C7_entry_nice (db : DB) (aid : Nat) :
    (entry_nice db aid = none ↔ ∀ e ∈ publishedEntries db aid, e.vote_rate ≤ 1)
    ∧ (∀ e, entry_nice db aid = some e →
        e ∈ publishedEntries db aid ∧ 1 < e.vote_rate ∧
        ∀ x ∈ publishedEntries db aid, x.vote_rate ≤ e.vote_rate) := by
  constructor
  · unfold entry_nice
    cases hb : bestByVoteRate (publishedEntries db aid) with
    | none =>
      have hemp : publishedEntries db aid = [] := bestByVoteRate_eq_none.mp hb
      rw [hemp]
      simp
    | some b =>
      dsimp only
      obtain ⟨hmem, hmax⟩ := bestByVoteRate_spec hb
      by_cases h1 : 1 < b.vote_rate
      · rw [if_pos h1]
        constructor
        · intro hc; exact absurd hc (by simp)
        · intro hall; exact absurd h1 (not_lt.mpr (hall b hmem))
      · rw [if_neg h1]
        refine iff_of_true rfl ?_
        intro x hx
        exact le_trans (hmax x hx) (not_lt.mp h1)
  · intro e he
    unfold entry_nice at he
    cases hb : bestByVoteRate (publishedEntries db aid) with
    | none => rw [hb] at he; exact absurd he (by simp)
    | some b =>
      rw [hb] at he
      dsimp only at he
      by_cases h1 : 1 < b.vote_rate
      · rw [if_pos h1] at he
        cases he
        obtain ⟨hmem, hmax⟩ := bestByVoteRate_spec hb
        exact ⟨hmem, h1, hmax⟩
      · rw [if_neg h1] at he
        exact absurd he (by simp)

/-- Store with two published entries of account 7, vote rates 2 and 0,
for the closed instance of C7. -/
def dbEntries : DB :=
  { dbEmpty with
    entries := [{ id := 1, author := 7, published := true, vote_rate := 2 },
                { id := 2, author := 7, published := true, vote_rate := 0 }] }

/-- Closed instance of C7: the surfaced entry is the published
maximal-vote-rate entry of the account and its rate exceeds 1. -/
theorem C7_entry_nice_witness :
    ({ id := 1, author := 7, published := true, vote_rate := 2 } : Entry) ∈
        publishedEntries dbEntries 7
      ∧ (1 : ℚ) <
        ({ id := 1, author := 7, published := true, vote_rate := 2 } : Entry).vote_rate :=
  let h := (C7_entry_nice dbEntries 7).2
    { id := 1, author := 7, published := true, vote_rate := 2 } (by decide)
  ⟨h.1, h.2.1⟩

/-- Claim C8: deleting account b cascades to every Memento holding b as
holder or patient and every verification row owned by b, while deleting
an entry keeps every author row (same ids, none deleted) and clears any
pinned-entry reference to it. -/
theorem C8_delete_cascades (db : DB) (b eid : Nat) :
    (∀ m ∈ (deleteAuthor db b).mementos, m.holder ≠ b ∧ m.patient ≠ b)
    ∧ (∀ v ∈ (deleteAuthor db b).verifications, v.author ≠ b)
    ∧ ((deleteEntry db eid).authors.map (fun a => a.id)
        = db.authors.map (fun a => a.id))
    ∧ (∀ a ∈ (deleteEntry db eid).authors, a.pinned_entry ≠ some eid) := by
  refine ⟨?_, ?_, ?_, ?_⟩
  · intro m hm
    unfold deleteAuthor at hm
    have h2 := (List.mem_filter.mp hm).2
    simp only [Bool.and_eq_true, Bool.not_eq_eq_eq_not, Bool.not_true,
      beq_eq_false_iff_ne] at h2
    exact h2
  · intro v hv
    unfold deleteAuthor at hv
    have h2 := (List.mem_filter.mp hv).2
    simpa using h2
  · unfold deleteEntry
    rw [List.map_map]
    apply List.map_congr_left
    intro a _
    by_cases h : a.pinned_entry = some eid
    · simp only [Function.comp_apply, if_pos h]
    · simp only [Function.comp_apply, if_neg h]
  · intro a ha
    unfold deleteEntry at ha
    obtain ⟨r, hr, hra⟩ := List.mem_map.mp ha
    by_cases h : r.pinned_entry = some eid
    · rw [if_pos h] at hra
      rw [← hra]
      simp
    · rw [if_neg h] at hra
      rw [← hra]
      exact h

/-- Store with two accounts (0 pins entry 9; 1 owns a token and is the
patient of account 0's memento), one entry, for closed instances of C8
and C9. -/
def dbFull : DB :=
  { authors := [{ id := 0, username := "aa", email := "a@a.a",
                  pinned_entry := some 9, following_categories := [] },
                { id := 1, username := "bb", email := "b@b.b",
                  pinned_entry := none, following_categories := [] }]
    entries := [{ id := 9, author := 0, published := true, vote_rate := 0 }]
    categories := []
    mementos := [{ id := 0, body := some "x", holder := 0, patient := 1 }]
    verifications := [{ id := 0, author := 1, verification_token := "t",
                        new_email := none, expiration_date := 0 }] }

/-- Closed instance of C8: deleting entry 9 keeps both author rows. -/
theorem C8_delete_cascades_witness :
    (deleteEntry dbFull 9).authors.map (fun a => a.id)
      = dbFull.authors.map (fun a => a.id) :=
  (C8_delete_cascades dbFull 1 9).2.2.1

/-- Claim C9: the unique column backing the one-to-one `pinned_entry`
reference means two distinct accounts never pin the same entry — pinning
an entry pinned by another account is rejected, and a successful pin
leaves the pinning account as the only one referencing that entry. -/
theorem C9_pinned_unique :
    (∀ db aid eid, (∃ a ∈ db.authors, a.id ≠ aid ∧ a.pinned_entry = some eid) →
        pinEntry db aid eid = .error .alreadyPinned)
    ∧ (∀ db aid eid db', pinEntry db aid eid = .ok db' →
        ∀ a ∈ db'.authors, a.pinned_entry = some eid → a.id = aid) := by
  constructor
  · rintro db aid eid ⟨a, ha, hne, hpin⟩
    unfold pinEntry
    have hany : db.authors.any
        (fun x => !(x.id == aid) && x.pinned_entry == some eid) = true := by
      rw [List.any_eq_true]
      exact ⟨a, ha, by simp [hne, hpin]⟩
    rw [if_pos hany]
  · intro db aid eid db' h
    unfold pinEntry at h
    by_cases hany : db.authors.any
        (fun x => !(x.id == aid) && x.pinned_entry == some eid) = true
    · rw [if_pos hany] at h
      exact absurd h (by simp)
    · rw [if_neg hany] at h
      have hfalse := Bool.not_eq_true _ ▸ hany
      cases h
      intro a ha hpin
      obtain ⟨r, hr, hra⟩ := List.mem_map.mp ha
      by_cases hid : r.id = aid
      · rw [if_pos hid] at hra
        rw [← hra]
        exact hid
      · rw [if_neg hid] at hra
        exfalso
        have hnone := List.any_eq_false.mp (Bool.eq_false_iff.mpr hany) r hr
        rw [← hra] at hpin
        simp only [Bool.and_eq_true, Bool.not_eq_eq_eq_not, Bool.not_true,
          beq_eq_false_iff_ne, beq_iff_eq, not_and] at hnone
        exact absurd hpin (hnone hid)

/-- Closed instance of C9: account 1 pinning entry 9, already pinned by
account 0, is rejected by the unique constraint. -/
theorem C9_pinned_unique_witness :
    pinEntry dbFull 1 9 = .error .alreadyPinned :=
  C9_pinned_unique.1 dbFull 1 9
    ⟨{ id := 0, username := "aa", email := "a@a.a",
       pinned_entry := some 9, following_categories := [] },
     by decide, by decide, by decide⟩

/-- Claim C10: a handle longer than 50 characters fails account-creation
validation — the `username` column carries `max_length=50` on top of the
restricted-alphabet pattern. -/
theorem C10_username_max_length (db : DB) (u e : String) (h : 50 < u.length) :
    createAuthor db u e = .error .validation := by
  have hv : validUsername u = false := by
    unfold validUsername
    have hlen : decide (u.length ≤ 50) = false := by
      simp only [decide_eq_false_iff_not, not_le]
      exact h
    rw [hlen]
    simp
  unfold createAuthor
  rw [if_neg (by simp [hv])]

/-- Closed instance of C10: the 51-character all-lowercase handle fails
validation. -/
theorem C10_username_max_length_witness :
    createAuthor dbEmpty (String.mk (List.replicate 51 (Char.ofNat 97)))
        "a@b.c" = .error .validation :=
  C10_username_max_length dbEmpty
    (String.mk (List.replicate 51 (Char.ofNat 97))) "a@b.c" (by decide)

end Sozluk
